import Mathlib

/-!
Shallow embedding of `src/src/pc/linux/java/File.cpp` (the Linux `File`
abstraction of McBetaCpp).

Strings: `jstring` (std::u16string, the display encoding) and the UTF-8
`std::string` storage encoding are both modelled as `List Char`.  The
external `String::toUTF8` / `String::fromUTF8` codec is an opaque
collaborator in the design, so it is modelled as an abstract pair of
functions packaged in `Codec`; concrete instantiations use the identity
codec.

Host interaction: read-only syscalls (`realpath`, `stat`, the
`opendir`/`readdir` iteration, `readlink("/proc/self/exe")`,
`getenv("HOME")`) are modelled as an oracle structure `FS`.  The mutating
syscalls behind `createNewFile` (`open(O_CREAT|O_RDWR, 0644)` + `close`)
and `toStreamOut` (`std::ofstream` in binary mode, i.e. `O_WRONLY |
O_CREAT | O_TRUNC`) are modelled as explicit state transitions on a
filesystem state `FSState` mapping paths to nodes.
-/

/-- The external text codec (String::toUTF8 / String::fromUTF8),
treated as a black box per the design. -/
structure Codec where
  toUTF8 : List Char → List Char
  fromUTF8 : List Char → List Char

/-- The identity codec, used to instantiate concrete examples. -/
def idCodec : Codec := ⟨fun s => s, fun s => s⟩

/-- Kind of a filesystem node as distinguished by `S_ISDIR` / `S_ISREG`. -/
inductive FileKind where
  | dir
  | reg
  | other
deriving DecidableEq

/-- Result of a successful `stat` call: the fields File.cpp reads
(`st_mode` collapsed to a kind, `st_size`, `st_mtim.tv_sec`,
`st_mtim.tv_nsec`).  POSIX guarantees `0 ≤ tv_nsec < 10^9`, so
nanoseconds are a `Nat`. -/
structure StatBuf where
  kind : FileKind
  size : Int
  mtimSec : Int
  mtimNsec : Nat
deriving DecidableEq

/-- Read-only host oracle: the outcomes of the non-mutating syscalls the
translation unit issues, for the instant of the call.
`realpath p = none` models `::realpath` failing (path does not exist);
`stat p = none` models `::stat` failing; `readdir p = none` models
`::opendir` returning NULL; `readdir p = some es` gives the raw entry
names (including "." and "..") in host iteration order; `selfExe` is the
target of the `/proc/self/exe` symlink (`none` = `readlink` fails);
`homeEnv` is the value of `getenv("HOME")` (`none` = unset). -/
structure FS where
  realpath : List Char → Option (List Char)
  stat : List Char → Option StatBuf
  readdir : List Char → Option (List (List Char))
  selfExe : Option (List Char)
  homeEnv : Option (List Char)

/-- `static std::string ToPath(const jstring &path)`: convert to UTF-8,
then `::realpath`; on failure return the UTF-8 path as-is. -/
def ToPath (fs : FS) (cd : Codec) (path : List Char) : List Char :=
  let u8path := cd.toUTF8 path
  match fs.realpath u8path with
  | some buffer => buffer
  | none => u8path

/-- `static jstring FromPath(const std::string &path)`. -/
def FromPath (cd : Codec) (path : List Char) : List Char :=
  cd.fromUTF8 path

/-- A `File_Impl` object: `path` is the inherited display-encoding field,
`u8path` the private UTF-8 canonical path. -/
structure FileEnt where
  path : List Char
  u8path : List Char
deriving DecidableEq

/-- The `File_Impl(const jstring &path)` constructor:
`u8path = ToPath(path); this->path = FromPath(u8path)`. -/
def File_Impl.mk' (fs : FS) (cd : Codec) (path : List Char) : FileEnt :=
  let u8path := ToPath fs cd path
  { u8path := u8path, path := FromPath cd u8path }

/-- `File_Impl::exists`: whether `::stat` succeeds. -/
def File_Impl.fexists (fs : FS) (e : FileEnt) : Bool :=
  (fs.stat e.u8path).isSome

/-- `File_Impl::isDirectory`: `false` if `::stat` fails, else `S_ISDIR`. -/
def File_Impl.isDirectory (fs : FS) (e : FileEnt) : Bool :=
  match fs.stat e.u8path with
  | none => false
  | some buffer => buffer.kind = FileKind.dir

/-- `File_Impl::isFile`: `false` if `::stat` fails, else `S_ISREG`. -/
def File_Impl.isFile (fs : FS) (e : FileEnt) : Bool :=
  match fs.stat e.u8path with
  | none => false
  | some buffer => buffer.kind = FileKind.reg

/-- `File_Impl::lastModified`: `return false` (= 0) if `::stat` fails,
else `st_mtim.tv_sec * 1000LL + st_mtim.tv_nsec / 1000000LL`.
Values fit comfortably in the C `long_t`, so plain `Int` is used. -/
def File_Impl.lastModified (fs : FS) (e : FileEnt) : Int :=
  match fs.stat e.u8path with
  | none => 0
  | some buffer => buffer.mtimSec * 1000 + (buffer.mtimNsec / 1000000 : Nat)

/-- `File_Impl::length`: `return false` (= 0) if `::stat` fails, else
`st_size`. -/
def File_Impl.flength (fs : FS) (e : FileEnt) : Int :=
  match fs.stat e.u8path with
  | none => 0
  | some buffer => buffer.size

/-- Directory-handle events issued by `listFiles`, to record that the
`DIR*` acquired by `::opendir` is released by `::closedir` before the
function returns. -/
inductive DirEvent where
  | opened
  | readEntry (name : List Char)
  | closed
deriving DecidableEq

/-- `File_Impl::listFiles`: empty if `isDirectory()` is false or
`::opendir` fails; otherwise one child `File_Impl` per `readdir` entry,
skipping "." and "..", each built from `u8path + "/" + d_name` converted
back through `FromPath`.  The second component is the trace of
directory-handle events. -/
def File_Impl.listFiles (fs : FS) (cd : Codec) (e : FileEnt) :
    List FileEnt × List DirEvent :=
  if File_Impl.isDirectory fs e then
    match fs.readdir e.u8path with
    | none => ([], [])
    | some entries =>
        ((entries.filter
            (fun nm => !(nm == ['.']) && !(nm == ['.', '.']))).map
          (fun nm => File_Impl.mk' fs cd (FromPath cd (e.u8path ++ '/' :: nm))),
         DirEvent.opened :: entries.map DirEvent.readEntry ++ [DirEvent.closed])
  else ([], [])

/-- Separator set of `path.find_last_of(u"/\\")` in `getParentFile`. -/
def seps : List Char := ['/', '\\']

/-- `find_last_of`: index of the last character of the string that
belongs to `cs`, if any. -/
def findLastOf (cs : List Char) : List Char → Option Nat
  | [] => none
  | c :: rest =>
    match findLastOf cs rest with
    | some j => some (j + 1)
    | none => if c ∈ cs then some 0 else none

/-- `File_Impl::getParentFile`: split the display path at the last `/`
or `\` and construct a fresh `File_Impl` from the prefix; if neither
occurs, construct one from the empty string. -/
def File_Impl.getParentFile (fs : FS) (cd : Codec) (e : FileEnt) : FileEnt :=
  match findLastOf seps e.path with
  | some npos => File_Impl.mk' fs cd (e.path.take npos)
  | none => File_Impl.mk' fs cd []

/-- The display path produced by one `getParentFile` step, as a function
of the current display path alone (the constructor re-canonicalizes). -/
def parentStep (fs : FS) (cd : Codec) (d : List Char) : List Char :=
  (File_Impl.getParentFile fs cd { path := d, u8path := [] }).path

/-- The display path an entity constructed from raw string `r` carries:
`FromPath (ToPath r)`. -/
def canonize (fs : FS) (cd : Codec) (r : List Char) : List Char :=
  (File_Impl.mk' fs cd r).path

/-- `sizeof(char*)` on the LP64 Linux target this file is compiled for. -/
def SIZEOF_CHAR_PTR : Nat := 8

/-- `File::openResourceDirectory` (the non-Apple branch): `length =
::readlink("/proc/self/exe", path, sizeof(path) - 1)` — note that
`path` is a `char*`, so the buffer size passed is `sizeof(char*) - 1 = 7`
and `readlink` stores at most 7 bytes of the link target, returning how
many it stored.  On `readlink` failure (return -1, which survives the
`uint32_t` round-trip of the `length == -1` test) the result is an
entity for the empty path; likewise when the (truncated) target contains
no `/`.  Otherwise the name after the last `/` is stripped and
`"/resource"` appended. -/
def File.openResourceDirectory (fs : FS) (cd : Codec) : FileEnt :=
  match fs.selfExe with
  | none => File_Impl.mk' fs cd []
  | some target =>
    let stored := target.take (SIZEOF_CHAR_PTR - 1)
    let u16str := FromPath cd stored
    match findLastOf ['/'] u16str with
    | none => File_Impl.mk' fs cd []
    | some pos =>
        File_Impl.mk' fs cd (u16str.take pos ++ ('/' :: "resource".toList))

/-- What the spec describes for the resource directory: strip the
executable name from the full self-path and append "/resource".
Modelled from the spec for comparison with `File.openResourceDirectory`. -/
def specResourceDirectory (fs : FS) (cd : Codec) : FileEnt :=
  match fs.selfExe with
  | none => File_Impl.mk' fs cd []
  | some target =>
    let u16str := FromPath cd target
    match findLastOf ['/'] u16str with
    | none => File_Impl.mk' fs cd []
    | some pos =>
        File_Impl.mk' fs cd (u16str.take pos ++ ('/' :: "resource".toList))

/-- `File::openWorkingDirectory(name)`: `getenv("HOME")`; if unset,
entity for the empty path; else `File_Impl(FromPath(home) + u"/" + name)`. -/
def File.openWorkingDirectory (fs : FS) (cd : Codec) (name : List Char) :
    FileEnt :=
  match fs.homeEnv with
  | none => File_Impl.mk' fs cd []
  | some home => File_Impl.mk' fs cd (FromPath cd home ++ '/' :: name)

/-- A filesystem node as the mutating-operation model tracks it:
kind, owner read/write permission, and content length in bytes. -/
structure Node where
  kind : FileKind
  rw : Bool
  len : Nat
deriving DecidableEq

/-- Mutable filesystem state for the mutating operations.  `nodes` maps
a (UTF-8) path to its node if one exists; `canCreate p` abstracts the
host-side conditions for creating a new file at `p` (parent directory
exists, permissions allow it). -/
structure FSState where
  nodes : List Char → Option Node
  canCreate : List Char → Bool

/-- State after inserting (or replacing) node `n` at path `p`. -/
def FSState.insert (s : FSState) (p : List Char) (n : Node) : FSState :=
  { s with nodes := fun q => if q = p then some n else s.nodes q }

/-- `File_Impl::createNewFile` acting on the entity's `u8path`:
`::open(u8path, O_CREAT | O_RDWR, 0644)` then `::close`.  On an existing
node the open succeeds iff the node is not a directory (`EISDIR`) and is
readable+writable; no `O_TRUNC`, so the node is untouched.  On an absent
path a fresh empty regular file with owner rw permission (0644) is
created when the host allows.  Returns the success boolean and the new
state. -/
def File_Impl.createNewFile (s : FSState) (u8path : List Char) :
    Bool × FSState :=
  match s.nodes u8path with
  | some n => (decide (n.kind ≠ FileKind.dir) && n.rw, s)
  | none =>
    if s.canCreate u8path then
      (true, s.insert u8path ⟨FileKind.reg, true, 0⟩)
    else (false, s)

/-- `File_Impl::toStreamOut` acting on the entity's `u8path`:
`std::ofstream(u8path, std::ios::binary)`, i.e. open for writing with
truncation (`O_WRONLY | O_CREAT | O_TRUNC`).  The boolean is whether a
non-null stream is returned (`is_open() && good()`).  Opening an
existing regular writable file truncates it to length 0; a directory or
an unwritable node fails; an absent path is created empty when the host
allows. -/
def File_Impl.toStreamOut (s : FSState) (u8path : List Char) :
    Bool × FSState :=
  match s.nodes u8path with
  | some n =>
    if n.kind = FileKind.dir then (false, s)
    else if n.rw then
      if n.kind = FileKind.reg then
        (true, s.insert u8path { n with len := 0 })
      else (true, s)
    else (false, s)
  | none =>
    if s.canCreate u8path then
      (true, s.insert u8path ⟨FileKind.reg, true, 0⟩)
    else (false, s)

/-! ### Concrete hosts and states used to evaluate the model -/

/-- Host with no filesystem entries, no self-exe link, no HOME. -/
def fsEmpty : FS := ⟨fun _ => none, fun _ => none, fun _ => none, none, none⟩

/-- Host whose /proc/self/exe resolves to a 20-byte executable path. -/
def fsExe : FS := { fsEmpty with selfExe := some "/home/user/minecraft".toList }

/-- Host where exactly the path "/x" exists, canonicalizing to "/rx". -/
def fsRealp : FS :=
  { fsEmpty with
    realpath := fun q => if q = "/x".toList then some "/rx".toList else none }

/-- Host with a regular file at "/f" (size 42, mtime 1234 s + 567890123 ns). -/
def fsStat : FS :=
  { fsEmpty with
    stat := fun q =>
      if q = "/f".toList then some ⟨FileKind.reg, 42, 1234, 567890123⟩
      else none }

/-- Host with a directory at "/d" whose iteration yields ".", "..", "a". -/
def fsDir : FS :=
  { fsEmpty with
    stat := fun q =>
      if q = "/d".toList then some ⟨FileKind.dir, 0, 0, 0⟩ else none,
    readdir := fun q =>
      if q = "/d".toList then some [['.'], ['.', '.'], ['a']] else none }

/-- Host with HOME set to "/home/u". -/
def fsHome : FS := { fsEmpty with homeEnv := some "/home/u".toList }

/-- Mutable state with a writable regular 5-byte file at "f". -/
def stReg : FSState :=
  ⟨fun q => if q = ['f'] then some ⟨FileKind.reg, true, 5⟩ else none,
   fun _ => true⟩

/-- Mutable state with no nodes, creation always allowed. -/
def stEmpty : FSState := ⟨fun _ => none, fun _ => true⟩

/-- Mutable state with a writable regular 42-byte file at "g". -/
def stBig : FSState :=
  ⟨fun q => if q = ['g'] then some ⟨FileKind.reg, true, 42⟩ else none,
   fun _ => true⟩

/-! ### Helper lemmas -/

theorem findLastOf_eq_none (cs : List Char) :
    ∀ d : List Char, (∀ c ∈ d, c ∉ cs) → findLastOf cs d = none := by
  intro d
  induction d with
  | nil => intro _; rfl
  | cons c rest ih =>
    intro h
    have hrest := ih (fun x hx => h x (List.mem_cons_of_mem c hx))
    have hc : c ∉ cs := h c (List.mem_cons_self c rest)
    simp [findLastOf, hrest, hc]

theorem findLastOf_last (cs : List Char) (s : Char)
    (hs : s ∈ cs) :
    ∀ (t rest : List Char), (∀ c ∈ rest, c ∉ cs) →
      findLastOf cs (t ++ s :: rest) = some t.length := by
  intro t
  induction t with
  | nil =>
    intro rest hrest
    have : findLastOf cs rest = none := findLastOf_eq_none cs rest hrest
    simp [findLastOf, this, hs]
  | cons c t' ih =>
    intro rest hrest
    have h2 : findLastOf cs (t'.append (s :: rest)) = some t'.length :=
      ih rest hrest
    simp only [List.cons_append, findLastOf, h2, List.length_cons]

theorem findLastOf_lt (cs : List Char) :
    ∀ (d : List Char) (i : Nat), findLastOf cs d = some i → i < d.length := by
  intro d
  induction d with
  | nil => intro i h; simp [findLastOf] at h
  | cons c rest ih =>
    intro i h
    simp only [findLastOf] at h
    cases hr : findLastOf cs rest with
    | some j =>
      rw [hr] at h
      cases h
      exact Nat.succ_lt_succ (ih j hr)
    | none =>
      rw [hr] at h
      by_cases hc : c ∈ cs
      · simp [hc] at h
        cases h
        exact Nat.succ_pos _
      · simp [hc] at h

theorem take_len_append {α : Type} : ∀ (t r : List α), (t ++ r).take t.length = t := by
  intro t r
  induction t with
  | nil => rfl
  | cons c t' ih => simp [List.take, ih]

/-- Unfolding of one parent step on a display path. -/
theorem parentStep_eq (fs : FS) (cd : Codec) (d : List Char) :
    parentStep fs cd d =
      match findLastOf seps d with
      | some i => canonize fs cd (d.take i)
      | none => canonize fs cd [] := by
  unfold parentStep File_Impl.getParentFile canonize
  cases findLastOf seps d <;> rfl

theorem parentStep_aux (fs : FS) (cd : Codec)
    (h0 : canonize fs cd [] = [])
    (hpar : ∀ d i, canonize fs cd d = d → findLastOf seps d = some i →
      d.take i ≠ [] → canonize fs cd (d.take i) = d.take i) :
    ∀ (N : Nat) (d : List Char), d.length ≤ N → canonize fs cd d = d →
      ∃ n, parentStep fs cd ((parentStep fs cd)^[n] d) =
        (parentStep fs cd)^[n] d := by
  intro N
  induction N with
  | zero =>
    intro d hlen _
    have hd : d = [] := List.eq_nil_of_length_eq_zero (Nat.le_zero.mp hlen)
    subst hd
    refine ⟨0, ?_⟩
    simp only [Function.iterate_zero, id]
    rw [parentStep_eq]
    simp [findLastOf, h0]
  | succ N ih =>
    intro d hlen hcanon
    have hnil_fixed : parentStep fs cd [] = [] := by
      rw [parentStep_eq]; simp [findLastOf, h0]
    cases hfind : findLastOf seps d with
    | none =>
      refine ⟨1, ?_⟩
      have h1 : parentStep fs cd d = [] := by
        rw [parentStep_eq, hfind]; exact h0
      simp only [Function.iterate_one, h1, hnil_fixed]
    | some i =>
      have hi : i < d.length := findLastOf_lt seps d i hfind
      by_cases ht : d.take i = []
      · refine ⟨1, ?_⟩
        have h1 : parentStep fs cd d = [] := by
          rw [parentStep_eq, hfind]
          show canonize fs cd (d.take i) = []
          rw [ht]; exact h0
        simp only [Function.iterate_one, h1, hnil_fixed]
      · have hct : canonize fs cd (d.take i) = d.take i :=
          hpar d i hcanon hfind ht
        have hstep : parentStep fs cd d = d.take i := by
          rw [parentStep_eq, hfind]; exact hct
        have hlen' : (d.take i).length ≤ N := by
          rw [List.length_take]
          exact Nat.le_of_lt_succ
            (Nat.lt_of_le_of_lt (Nat.min_le_left i d.length)
              (Nat.lt_of_lt_of_le hi hlen))
        obtain ⟨m, hm⟩ := ih (d.take i) hlen' hct
        refine ⟨m + 1, ?_⟩
        rw [Function.iterate_succ_apply, hstep]
        exact hm

/-- One getParentFile call changes the display path exactly as
`parentStep` does. -/
theorem getParentFile_path (fs : FS) (cd : Codec) (e : FileEnt) :
    (File_Impl.getParentFile fs cd e).path = parentStep fs cd e.path := by
  unfold parentStep File_Impl.getParentFile
  cases findLastOf seps e.path <;> rfl

/-- Iterating getParentFile acts on display paths as iterating
`parentStep`. -/
theorem iterate_getParentFile_path (fs : FS) (cd : Codec) :
    ∀ (k : Nat) (e : FileEnt),
      ((fun x => File_Impl.getParentFile fs cd x)^[k] e).path =
        (parentStep fs cd)^[k] e.path := by
  intro k
  induction k with
  | zero => intro e; rfl
  | succ k ih =>
    intro e
    rw [Function.iterate_succ_apply, Function.iterate_succ_apply]
    rw [ih (File_Impl.getParentFile fs cd e), getParentFile_path]

/-! ### Claim theorems -/

/-- C2: constructing an entity never fails; its canonical path is the
realpath result whenever realpath succeeds on the UTF-8-converted input,
and the UTF-8-converted input unchanged whenever realpath fails. -/
theorem construction_canonicalizes (fs : FS) (cd : Codec) (p : List Char) :
    (∀ c, fs.realpath (cd.toUTF8 p) = some c →
      (File_Impl.mk' fs cd p).u8path = c) ∧
    (fs.realpath (cd.toUTF8 p) = none →
      (File_Impl.mk' fs cd p).u8path = cd.toUTF8 p) := by
  constructor
  · intro c h
    simp [File_Impl.mk', ToPath, h]
  · intro h
    simp [File_Impl.mk', ToPath, h]

/-- C2 witness: on a host where "/x" canonicalizes to "/rx" and "/y"
does not exist, construction stores "/rx" and "/y" respectively. -/
theorem construction_canonicalizes_witness :
    (File_Impl.mk' fsRealp idCodec "/x".toList).u8path = "/rx".toList ∧
    (File_Impl.mk' fsRealp idCodec "/y".toList).u8path = "/y".toList :=
  ⟨(construction_canonicalizes fsRealp idCodec "/x".toList).1
      "/rx".toList (by decide),
   (construction_canonicalizes fsRealp idCodec "/y".toList).2 (by decide)⟩

/-- C3: when the stat probe fails, exists, isDirectory and isFile are
false and lastModified and length are the zero sentinel; no query
raises an error (all are total functions). -/
theorem statFailure_metadata_defaults (fs : FS) (e : FileEnt)
    (h : fs.stat e.u8path = none) :
    File_Impl.fexists fs e = false ∧
    File_Impl.isDirectory fs e = false ∧
    File_Impl.isFile fs e = false ∧
    File_Impl.lastModified fs e = 0 ∧
    File_Impl.flength fs e = 0 := by
  simp [File_Impl.fexists, File_Impl.isDirectory, File_Impl.isFile,
    File_Impl.lastModified, File_Impl.flength, h]

/-- C3 witness: on the empty host every metadata query of "/nope"
reports the absent/zero defaults. -/
theorem statFailure_metadata_defaults_witness :
    File_Impl.fexists fsEmpty ⟨"/nope".toList, "/nope".toList⟩ = false ∧
    File_Impl.isDirectory fsEmpty ⟨"/nope".toList, "/nope".toList⟩ = false ∧
    File_Impl.isFile fsEmpty ⟨"/nope".toList, "/nope".toList⟩ = false ∧
    File_Impl.lastModified fsEmpty ⟨"/nope".toList, "/nope".toList⟩ = 0 ∧
    File_Impl.flength fsEmpty ⟨"/nope".toList, "/nope".toList⟩ = 0 :=
  statFailure_metadata_defaults fsEmpty ⟨"/nope".toList, "/nope".toList⟩ rfl

/-- C6: when the stat probe succeeds, lastModified is the modification
time's whole seconds times 1000 plus its nanoseconds divided by
1,000,000. -/
theorem lastModified_millis (fs : FS) (e : FileEnt) (b : StatBuf)
    (h : fs.stat e.u8path = some b) :
    File_Impl.lastModified fs e =
      b.mtimSec * 1000 + (b.mtimNsec / 1000000 : Nat) := by
  simp [File_Impl.lastModified, h]

/-- C6 witness: a file modified at 1234 s + 567890123 ns reports
1234 * 1000 + 567 milliseconds. -/
theorem lastModified_millis_witness :
    File_Impl.lastModified fsStat ⟨"/f".toList, "/f".toList⟩ =
      (1234 : Int) * 1000 + ((567890123 : Nat) / 1000000 : Nat) :=
  lastModified_millis fsStat ⟨"/f".toList, "/f".toList⟩
    ⟨FileKind.reg, 42, 1234, 567890123⟩ (by decide)

/-- C9: getParentFile splits the display path at the last occurrence of
either '/' or '\' (backslash is a separator on this POSIX
implementation too) and builds the parent from the prefix before it;
when neither separator occurs, it builds an entity from the empty
path. -/
theorem getParentFile_split (fs : FS) (cd : Codec) (e : FileEnt) :
    ((∀ c ∈ e.path, c ∉ seps) →
      File_Impl.getParentFile fs cd e = File_Impl.mk' fs cd []) ∧
    (∀ t s rest, e.path = t ++ s :: rest → s ∈ seps →
      (∀ c ∈ rest, c ∉ seps) →
      File_Impl.getParentFile fs cd e = File_Impl.mk' fs cd t) := by
  constructor
  · intro h
    unfold File_Impl.getParentFile
    rw [findLastOf_eq_none seps e.path h]
  · intro t s rest hsplit hs hrest
    unfold File_Impl.getParentFile
    rw [hsplit, findLastOf_last seps s hs t rest hrest]
    show File_Impl.mk' fs cd ((t ++ s :: rest).take t.length) =
      File_Impl.mk' fs cd t
    rw [take_len_append]

/-- C9 witness: the parent of the display path "a\b" is the entity
built from "a" (split at the backslash). -/
theorem getParentFile_split_witness :
    File_Impl.getParentFile fsEmpty idCodec ⟨['a', '\\', 'b'], []⟩ =
      File_Impl.mk' fsEmpty idCodec ['a'] :=
  (getParentFile_split fsEmpty idCodec ⟨['a', '\\', 'b'], []⟩).2
    ['a'] '\\' ['b'] rfl (by decide) (by decide)

/-- C4: from any entity, repeated getParentFile (a total function, so it
never throws) reaches, in finitely many steps, an entity whose display
path is a fixed point: every further call yields an entity with the same
path.  The host hypotheses say the canonicalization step is sane: the
empty path canonicalizes to itself, canonicalization is idempotent, and
the separator-split prefix of a canonical path is canonical. -/
theorem getParentFile_reaches_fixed_point (fs : FS) (cd : Codec)
    (h0 : canonize fs cd [] = [])
    (hidem : ∀ r, canonize fs cd (canonize fs cd r) = canonize fs cd r)
    (hpar : ∀ d i, canonize fs cd d = d → findLastOf seps d = some i →
      d.take i ≠ [] → canonize fs cd (d.take i) = d.take i)
    (r : List Char) :
    ∃ n,
      (File_Impl.getParentFile fs cd
          ((fun e => File_Impl.getParentFile fs cd e)^[n]
            (File_Impl.mk' fs cd r))).path =
        ((fun e => File_Impl.getParentFile fs cd e)^[n]
          (File_Impl.mk' fs cd r)).path ∧
      ∀ m, n ≤ m →
        ((fun e => File_Impl.getParentFile fs cd e)^[m]
          (File_Impl.mk' fs cd r)).path =
        ((fun e => File_Impl.getParentFile fs cd e)^[n]
          (File_Impl.mk' fs cd r)).path := by
  have hc : canonize fs cd ((File_Impl.mk' fs cd r).path) =
      (File_Impl.mk' fs cd r).path := hidem r
  obtain ⟨n, hn⟩ := parentStep_aux fs cd h0 hpar
    ((File_Impl.mk' fs cd r).path).length ((File_Impl.mk' fs cd r).path)
    le_rfl hc
  refine ⟨n, ?_, ?_⟩
  · rw [getParentFile_path, iterate_getParentFile_path]
    exact hn
  · intro m hm
    obtain ⟨k, rfl⟩ := Nat.exists_eq_add_of_le hm
    rw [iterate_getParentFile_path, iterate_getParentFile_path,
      Nat.add_comm n k, Function.iterate_add_apply]
    exact Function.iterate_fixed hn k

/-- C4 witness: on the empty host (canonicalization is the identity),
iterating getParentFile from the entity for "/a/b" reaches a fixed
point. -/
theorem getParentFile_reaches_fixed_point_witness :
    ∃ n,
      (File_Impl.getParentFile fsEmpty idCodec
          ((fun e => File_Impl.getParentFile fsEmpty idCodec e)^[n]
            (File_Impl.mk' fsEmpty idCodec "/a/b".toList))).path =
        ((fun e => File_Impl.getParentFile fsEmpty idCodec e)^[n]
          (File_Impl.mk' fsEmpty idCodec "/a/b".toList)).path ∧
      ∀ m, n ≤ m →
        ((fun e => File_Impl.getParentFile fsEmpty idCodec e)^[m]
          (File_Impl.mk' fsEmpty idCodec "/a/b".toList)).path =
        ((fun e => File_Impl.getParentFile fsEmpty idCodec e)^[n]
          (File_Impl.mk' fsEmpty idCodec "/a/b".toList)).path :=
  getParentFile_reaches_fixed_point fsEmpty idCodec rfl (fun _ => rfl)
    (fun _ _ _ _ _ => rfl) "/a/b".toList

/-- C7: listFiles of a non-directory is empty; of a directory it is one
child entity per host iteration entry, excluding exactly "." and "..",
in host order, and the directory handle is closed last before the
return. -/
theorem listFiles_spec (fs : FS) (cd : Codec) (e : FileEnt) :
    (File_Impl.isDirectory fs e = false →
      (File_Impl.listFiles fs cd e).1 = []) ∧
    (∀ entries, File_Impl.isDirectory fs e = true →
      fs.readdir e.u8path = some entries →
      (File_Impl.listFiles fs cd e).1 =
        (entries.filter
            (fun nm => !(nm == ['.']) && !(nm == ['.', '.']))).map
          (fun nm =>
            File_Impl.mk' fs cd (FromPath cd (e.u8path ++ '/' :: nm))) ∧
      (File_Impl.listFiles fs cd e).2.getLast? = some DirEvent.closed) := by
  constructor
  · intro h
    simp [File_Impl.listFiles, h]
  · intro entries hdir hrd
    unfold File_Impl.listFiles
    rw [hdir, hrd]
    refine ⟨rfl, ?_⟩
    show (DirEvent.opened :: entries.map DirEvent.readEntry
        ++ [DirEvent.closed]).getLast? = some DirEvent.closed
    exact List.getLast?_concat _

/-- C7 witness: the directory "/d" with entries ".", "..", "a" lists
exactly the child for "a", and the final handle event is the close. -/
theorem listFiles_spec_witness :
    (File_Impl.listFiles fsDir idCodec ⟨"/d".toList, "/d".toList⟩).1 =
      [File_Impl.mk' fsDir idCodec
        (FromPath idCodec ("/d".toList ++ '/' :: ['a']))] ∧
    (File_Impl.listFiles fsDir idCodec
        ⟨"/d".toList, "/d".toList⟩).2.getLast? = some DirEvent.closed := by
  have h := (listFiles_spec fsDir idCodec ⟨"/d".toList, "/d".toList⟩).2
    [['.'], ['.', '.'], ['a']] (by decide) (by decide)
  exact ⟨h.1.trans (by decide), h.2⟩

/-- C8: openWorkingDirectory reads HOME; if unset it yields the entity
for the empty path, otherwise the entity for the home directory joined
with the supplied application name as subdirectory. -/
theorem openWorkingDirectory_spec (fs : FS) (cd : Codec) (nm : List Char) :
    (fs.homeEnv = none →
      File.openWorkingDirectory fs cd nm = File_Impl.mk' fs cd []) ∧
    (∀ home, fs.homeEnv = some home →
      File.openWorkingDirectory fs cd nm =
        File_Impl.mk' fs cd (FromPath cd home ++ '/' :: nm)) := by
  constructor
  · intro h
    unfold File.openWorkingDirectory
    rw [h]
  · intro home h
    unfold File.openWorkingDirectory
    rw [h]

/-- C8 witness: HOME set to "/home/u" yields the entity for
"/home/u/mc"; HOME unset yields the entity for the empty path. -/
theorem openWorkingDirectory_spec_witness :
    File.openWorkingDirectory fsHome idCodec "mc".toList =
      File_Impl.mk' fsHome idCodec
        (FromPath idCodec "/home/u".toList ++ '/' :: "mc".toList) ∧
    File.openWorkingDirectory fsEmpty idCodec "mc".toList =
      File_Impl.mk' fsEmpty idCodec [] :=
  ⟨(openWorkingDirectory_spec fsHome idCodec "mc".toList).2
      "/home/u".toList rfl,
   (openWorkingDirectory_spec fsEmpty idCodec "mc".toList).1 rfl⟩

/-- C5: createNewFile on an existing writable regular file succeeds and
leaves the state (hence the content length) unchanged; on an absent
creatable path it succeeds, creates an empty regular file, and a second
call succeeds again without changing the state. -/
theorem createNewFile_openOrCreate (s : FSState) (p : List Char) :
    (∀ n, s.nodes p = some n → n.kind = FileKind.reg → n.rw = true →
      File_Impl.createNewFile s p = (true, s)) ∧
    (s.nodes p = none → s.canCreate p = true →
      (File_Impl.createNewFile s p).1 = true ∧
      ((File_Impl.createNewFile s p).2).nodes p =
        some ⟨FileKind.reg, true, 0⟩ ∧
      File_Impl.createNewFile (File_Impl.createNewFile s p).2 p =
        (true, (File_Impl.createNewFile s p).2)) := by
  constructor
  · intro n hn hk hrw
    simp [File_Impl.createNewFile, hn, hk, hrw]
  · intro h hc
    refine ⟨?_, ?_, ?_⟩
    · simp [File_Impl.createNewFile, h, hc]
    · simp [File_Impl.createNewFile, h, hc, FSState.insert]
    · simp [File_Impl.createNewFile, h, hc, FSState.insert]

/-- C5 witness: createNewFile on the existing 5-byte file "f" returns
success with the state untouched; on the fresh path "g" it creates an
empty file and the repeated call succeeds without changing anything. -/
theorem createNewFile_openOrCreate_witness :
    File_Impl.createNewFile stReg ['f'] = (true, stReg) ∧
    (File_Impl.createNewFile stEmpty ['g']).1 = true ∧
    ((File_Impl.createNewFile stEmpty ['g']).2).nodes ['g'] =
      some ⟨FileKind.reg, true, 0⟩ ∧
    File_Impl.createNewFile (File_Impl.createNewFile stEmpty ['g']).2 ['g'] =
      (true, (File_Impl.createNewFile stEmpty ['g']).2) :=
  ⟨(createNewFile_openOrCreate stReg ['f']).1
      ⟨FileKind.reg, true, 5⟩ (by decide) rfl rfl,
   (createNewFile_openOrCreate stEmpty ['g']).2 rfl rfl⟩

/-- C10: a successful toStreamOut on an existing writable regular file
returns a non-null stream and truncates the file: its length is 0
afterwards, whatever it was before. -/
theorem toStreamOut_truncates (s : FSState) (p : List Char) (n : Node)
    (hn : s.nodes p = some n) (hk : n.kind = FileKind.reg)
    (hrw : n.rw = true) :
    (File_Impl.toStreamOut s p).1 = true ∧
    ((File_Impl.toStreamOut s p).2).nodes p = some { n with len := 0 } := by
  simp [File_Impl.toStreamOut, hn, hk, hrw, FSState.insert]

/-- C10 witness: opening the 42-byte file "g" for output succeeds and
leaves it with length 0. -/
theorem toStreamOut_truncates_witness :
    (File_Impl.toStreamOut stBig ['g']).1 = true ∧
    ((File_Impl.toStreamOut stBig ['g']).2).nodes ['g'] =
      some ⟨FileKind.reg, true, 0⟩ :=
  toStreamOut_truncates stBig ['g'] ⟨FileKind.reg, true, 42⟩
    (by decide) rfl rfl

/-- C1: with the executable at "/home/user/minecraft", the code's
resource-directory lookup yields the entity for "/home/resource" — the
readlink call is given buffer size sizeof(char*) - 1 = 7, so the link
target is truncated before the filename is stripped — whereas the
claimed behaviour (specResourceDirectory, modelled from the spec) yields
"/home/user/resource". -/
theorem openResourceDirectory_truncated_eval :
    (File.openResourceDirectory fsExe idCodec).path =
      "/home/resource".toList ∧
    (specResourceDirectory fsExe idCodec).path =
      "/home/user/resource".toList ∧
    (File.openResourceDirectory fsExe idCodec).path ≠
      (specResourceDirectory fsExe idCodec).path :=
  ⟨by decide, by decide, by decide⟩
